import Mathlib

/-!
# Layered Architecture Dependency Validator — verification

Shallow embedding of the FSD (feature-sliced design) dependency validator
described by this repository.  The layer table `LAYER_DEPENDENCIES` is taken
from the repository source (`src/unnamed/part_003`, "레이어 의존성 규칙", and
`src/skills/fsd-architecture/SKILL.md`).  The repository ships the validator
as a prose rule set rather than executable code, so the rule evaluator,
report builder and cycle detector are modelled from the specification's
component design (§4) and error-handling design (§7).
-/

namespace FSD

/-- The fixed, totally ordered layer set of the architecture
(`shared < entities < features < widgets < pages < app`). -/
inductive Layer where
  | shared
  | entities
  | features
  | widgets
  | pages
  | app
  deriving DecidableEq, Fintype, Repr

/-- Position of a layer in the fixed order (`shared` lowest, `app` highest). -/
def Layer.index : Layer → Nat
  | .shared => 0
  | .entities => 1
  | .features => 2
  | .widgets => 3
  | .pages => 4
  | .app => 5

/-- Directory name of a layer as it appears in module paths. -/
def Layer.dirName : Layer → String
  | .shared => "shared"
  | .entities => "entities"
  | .features => "features"
  | .widgets => "widgets"
  | .pages => "pages"
  | .app => "app"

/-- All six layers, in ascending order of permission. -/
def allLayers : List Layer :=
  [.shared, .entities, .features, .widgets, .pages, .app]

/-- The `LAYER_DEPENDENCIES` table, transcribed from the repository source
(`src/unnamed/part_003`): each layer maps to the list of layers it may
depend on. -/
def LAYER_DEPENDENCIES : Layer → List Layer
  | .app => [.pages, .widgets, .features, .entities, .shared]
  | .pages => [.widgets, .features, .entities, .shared]
  | .widgets => [.features, .entities, .shared]
  | .features => [.entities, .shared]
  | .entities => [.shared]
  | .shared => []

/-- Modelled from the spec: a Layer Policy is a mapping
`layer -> set-of-layers-it-may-import-from` (spec §4.2); the repository has
no executable policy object, only the table above. -/
structure Policy where
  allowed : Layer → List Layer

/-- Modelled from the spec: the membership-check operation
`isAllowed(fromLayer, toLayer)` of the Layer Policy (spec §4.2). -/
def Policy.isAllowed (p : Policy) (fromL toL : Layer) : Bool :=
  (p.allowed fromL).contains toL

/-- The default policy: exactly the `LAYER_DEPENDENCIES` table of the source. -/
def defaultPolicy : Policy := ⟨LAYER_DEPENDENCIES⟩

/-- Modelled from the spec: the monotonicity check on a policy — every
allowed target layer must sit strictly below the importing layer in the
fixed order (spec §3 "Layer Policy table" invariant, §8). -/
def monotoneOK (p : Policy) : Bool :=
  allLayers.all fun l => (p.allowed l).all fun l2 => decide (l2.index < l.index)

/-- Modelled from the spec: `ConfigurationError` — a malformed Layer Policy;
the only fatal error of the validator (spec §7). -/
inductive ConfigurationError where
  | invalidPolicy
  deriving DecidableEq, Repr

/-- Modelled from the spec: policy loading — a custom policy violating the
monotonicity invariant raises `ConfigurationError` at load time (spec §8). -/
def loadPolicy (p : Policy) : Except ConfigurationError Policy :=
  if monotoneOK p then .ok p else .error .invalidPolicy

/-- Modelled from the spec: a Module — one source file, with its owning
layer and slice (either may be absent for unscoped files) and segment
(spec §3 "Module"). -/
structure Module where
  path : String
  layer : Option Layer
  slice : Option String
  segment : String
  deriving DecidableEq, Repr

/-- Modelled from the spec: an Edge — one import relation between two
modules, carrying whether the import target resolved to the target slice's
declared barrel/entry file (spec §3 "Edge"). -/
structure Edge where
  fromM : Module
  toM : Module
  targetIsBarrel : Bool
  line : Nat
  deriving DecidableEq, Repr

/-- The kinds of findings of the validator (spec §3 "Finding" plus
`SCAN_ERROR` from §4.1/§7). -/
inductive FindingKind where
  | SCAN_ERROR
  | LAYER_VIOLATION
  | PUBLIC_API_VIOLATION
  | CROSS_SLICE_VIOLATION
  | CIRCULAR_DEPENDENCY
  deriving DecidableEq, Fintype, Repr

/-- Printable name of a finding kind. -/
def FindingKind.kindName : FindingKind → String
  | .SCAN_ERROR => "SCAN_ERROR"
  | .LAYER_VIOLATION => "LAYER_VIOLATION"
  | .PUBLIC_API_VIOLATION => "PUBLIC_API_VIOLATION"
  | .CROSS_SLICE_VIOLATION => "CROSS_SLICE_VIOLATION"
  | .CIRCULAR_DEPENDENCY => "CIRCULAR_DEPENDENCY"

/-- Modelled from the spec: the Layer rule (spec §4.3 rule 1) — both layers
scoped, layers differ, and the policy does not allow the import. -/
def layerRule (p : Policy) (e : Edge) : Bool :=
  match e.fromM.layer, e.toM.layer with
  | some lf, some lt => decide (lf ≠ lt) && ! p.isAllowed lf lt
  | _, _ => false

/-- Modelled from the spec: whether an edge crosses a slice boundary —
`fromModule.slice != toModule.slice`, or `fromModule` has no slice
(spec §4.3 rule 2). -/
def crossesSliceBoundary (e : Edge) : Bool :=
  decide (e.fromM.slice ≠ e.toM.slice) || decide (e.fromM.slice = none)

/-- Modelled from the spec: the Public-API rule (spec §4.3 rule 2) — the
target lies inside a slice's tree, is not that slice's barrel file, and the
edge crosses a slice boundary. -/
def publicApiRule (e : Edge) : Bool :=
  e.toM.slice.isSome && ! e.targetIsBarrel && crossesSliceBoundary e

/-- Modelled from the spec: the Cross-slice rule (spec §4.3 rule 3) — equal
layers, different non-null slices, and the layer is not `shared`. -/
def crossSliceRule (e : Edge) : Bool :=
  match e.fromM.layer, e.toM.layer, e.fromM.slice, e.toM.slice with
  | some lf, some lt, some sf, some st =>
      decide (lf = lt) && decide (sf ≠ st) && decide (lf ≠ Layer.shared)
  | _, _, _, _ => false

/-- Modelled from the spec: per-edge classification, evaluating the three
per-edge rules in the fixed order of spec §4.3, first matching rule wins. -/
def classifyEdge (p : Policy) (e : Edge) : Option FindingKind :=
  if layerRule p e then some .LAYER_VIOLATION
  else if publicApiRule e then some .PUBLIC_API_VIOLATION
  else if crossSliceRule e then some .CROSS_SLICE_VIOLATION
  else none

/-- A Finding: the output unit of the evaluator (spec §3). `cycle` is the
ordered slice list of a `CIRCULAR_DEPENDENCY` finding and empty otherwise. -/
structure Finding where
  kind : FindingKind
  path : String
  line : Nat
  cycle : List String
  deriving DecidableEq, Repr

/-- The finding produced for a classified edge. -/
def edgeFinding (e : Edge) (k : FindingKind) : Finding :=
  ⟨k, e.fromM.path, e.line, []⟩

/-- Modelled from the spec: per-edge findings of the evaluator — every edge
of the graph is classified and every violation becomes a finding; the
evaluator never stops early (spec §4.3, §7). -/
def edgeFindings (p : Policy) (es : List Edge) : List Finding :=
  es.filterMap fun e => (classifyEdge p e).map (edgeFinding e)

/-- Severity of a finding. -/
inductive Severity where
  | WARNING
  | ERROR
  deriving DecidableEq, Repr

/-- Modelled from the spec: the severity table (spec §4.3) —
`LAYER_VIOLATION`, `CIRCULAR_DEPENDENCY` and `SCAN_ERROR` are always ERROR;
`PUBLIC_API_VIOLATION` and `CROSS_SLICE_VIOLATION` are ERROR in strict mode
and WARNING otherwise. -/
def severity (strict : Bool) : FindingKind → Severity
  | .SCAN_ERROR => .ERROR
  | .LAYER_VIOLATION => .ERROR
  | .CIRCULAR_DEPENDENCY => .ERROR
  | .PUBLIC_API_VIOLATION => if strict then .ERROR else .WARNING
  | .CROSS_SLICE_VIOLATION => if strict then .ERROR else .WARNING

/-- Overall run status. -/
inductive Status where
  | PASS
  | FAIL
  deriving DecidableEq, Repr

/-- Modelled from the spec: the exit/status contract (spec §4.4) — FAIL
exactly when some finding has severity ERROR under the active mode. -/
def resultStatus (strict : Bool) (fs : List Finding) : Status :=
  if fs.any fun f => decide (severity strict f.kind = .ERROR) then .FAIL else .PASS

/-- The slice identifier of a module: `layerDir/sliceName`, or nothing for a
module that is not inside a slice. -/
def sliceId (m : Module) : Option String :=
  match m.layer, m.slice with
  | some l, some s => some (l.dirName ++ "/" ++ s)
  | _, _ => none

/-- Comparison key of a slice identifier: its character codes.  Lists of
naturals carry the lexicographic linear order, which is kernel-computable,
so slice identifiers are compared lexicographically through this key. -/
def strKey (s : String) : List Nat := s.data.map Char.toNat

/-- Lexicographic order on slice identifiers, through `strKey`. -/
def keyLe (a b : String) : Prop := strKey a ≤ strKey b

instance : DecidableRel keyLe := fun a b =>
  inferInstanceAs (Decidable (strKey a ≤ strKey b))

instance : IsTotal String keyLe := ⟨fun a b => le_total (strKey a) (strKey b)⟩

instance : IsTrans String keyLe := ⟨fun _ _ _ h1 h2 => le_trans h1 h2⟩

theorem strKey_injective : Function.Injective strKey := by
  intro a b h
  have hchar : Function.Injective Char.toNat := by
    intro c1 c2 hc
    exact Char.eq_of_val_eq (UInt32.ext hc)
  have hd : a.data = b.data := List.map_injective_iff.mpr hchar h
  cases a; cases b; simp_all

instance : IsAntisymm String keyLe :=
  ⟨fun _ _ h1 h2 => strKey_injective (le_antisymm h1 h2)⟩

/-- Modelled from the spec: the slice-level condensation of the module
graph (spec §4.3 rule 4) — slice `a` depends on slice `b` when some module
of `a` imports some module of `b`; intra-slice module edges are out of
scope for cycle detection (spec §9), so only distinct slices are related. -/
def sliceEdgeB (es : List Edge) (a b : String) : Bool :=
  es.any fun e =>
    decide (sliceId e.fromM = some a) && decide (sliceId e.toM = some b) && decide (a ≠ b)

/-- Condensation following the claim's words literally, kept for comparison
with `sliceEdgeB`: slice `a` depends on slice `b` when some module of `a`
references some module of `b`, with no restriction to distinct slices, so
an intra-slice reference induces a self-loop. -/
def sliceEdgeLiteralB (es : List Edge) (a b : String) : Bool :=
  es.any fun e =>
    decide (sliceId e.fromM = some a) && decide (sliceId e.toM = some b)

/-- The canonical node list of the condensed graph: every slice identifier
occurring on either end of an edge, deduplicated and sorted
lexicographically.  Sorting makes the result independent of the order in
which modules were scanned. -/
def canonNodes (es : List Edge) : List String :=
  ((es.filterMap fun e => sliceId e.fromM) ++ (es.filterMap fun e => sliceId e.toM)).dedup.insertionSort keyLe

/-- One saturation step of reachability: add every node with an edge from a
node already seen. -/
def expandOnce (edge : String → String → Bool) (nodes seen : List String) : List String :=
  seen ++ nodes.filter fun t => ! seen.contains t && seen.any fun s => edge s t

/-- All nodes reachable from `a` (including `a`), by saturating one step per
node — enough iterations to follow any simple path. -/
def reachSet (edge : String → String → Bool) (nodes : List String) (a : String) : List String :=
  Nat.iterate (expandOnce edge nodes) nodes.length [a]

/-- Boolean reachability on the condensed graph. -/
def reachB (edge : String → String → Bool) (nodes : List String) (a b : String) : Bool :=
  (reachSet edge nodes a).contains b

/-- The strongly-connected component of `s`: all nodes mutually reachable
with `s`, listed in the canonical (sorted) node order. -/
def sccOf (edge : String → String → Bool) (nodes : List String) (s : String) : List String :=
  nodes.filter fun t => reachB edge nodes s t && reachB edge nodes t s

/-- Modelled from the spec: the nontrivial strongly-connected components of
the condensed graph — size greater than one, or carrying a self-loop
(spec §4.3 rule 4); each component is listed once. -/
def nontrivialSCCs (edge : String → String → Bool) (nodes : List String) : List (List String) :=
  ((nodes.map (sccOf edge nodes)).dedup).filter fun c =>
    decide (1 < c.length) || c.any fun s => edge s s

/-- The next node of the canonical cycle walk: the smallest not-yet-visited
successor of `u`, or the smallest not-yet-visited node when `u` has no
remaining successor (`rem` is kept in ascending order, so the head of a
filter over it is the smallest matching element). -/
def walkStep (edge : String → String → Bool) (u : String) (rem : List String) : String :=
  match rem.filter fun t => edge u t with
  | t :: _ => t
  | [] => rem.headD u

/-- The canonical cycle walk: starting from `u`, repeatedly move to
`walkStep` and remove the visited node, until the remaining set is
exhausted; the fuel equals the number of remaining nodes, so every node of
`rem` is visited exactly once. -/
def walkFrom (edge : String → String → Bool) : Nat → String → List String → List String
  | 0, _, _ => []
  | _ + 1, _, [] => []
  | n + 1, u, r :: rs =>
      walkStep edge u (r :: rs) ::
        walkFrom edge n (walkStep edge u (r :: rs)) ((r :: rs).erase (walkStep edge u (r :: rs)))

/-- Modelled from the spec: the canonical reported cycle of a component
(spec §4.3 rule 4) — the cycle walk begins at the lexicographically
smallest slice identifier of the component (the head of the sorted member
list) and follows at each step the smallest unvisited successor; for a
simple cycle this is exactly the cycle rotated to start at the
lexicographically smallest slice identifier. -/
def cyclePath (edge : String → String → Bool) (c : List String) : List String :=
  match c with
  | [] => []
  | s0 :: rest => s0 :: walkFrom edge rest.length s0 rest

/-- The single finding reported for one cycle (nontrivial component),
carrying the canonical reported cycle of the component. -/
def cycleFinding (edge : String → String → Bool) (c : List String) : Finding :=
  ⟨.CIRCULAR_DEPENDENCY, c.headD "", 0, cyclePath edge c⟩

/-- Modelled from the spec: circular-dependency detection, run once
globally over the slice-level condensation (spec §4.3 rule 4) — one
`CIRCULAR_DEPENDENCY` finding per nontrivial strongly-connected component. -/
def circularFindings (es : List Edge) : List Finding :=
  (nontrivialSCCs (sliceEdgeB es) (canonNodes es)).map (cycleFinding (sliceEdgeB es))

/-- A slice discovered by the structure scan, with whether it contains an
`index.ts` public-API barrel file (source: `src/unnamed/part_003`, §3.2
"슬라이스 구조 검증"). -/
structure SliceInfo where
  id : String
  hasIndexTs : Bool
  deriving DecidableEq, Repr

/-- The kind of a structure issue — distinct from the finding taxonomy of
the specification. -/
inductive StructureIssueKind where
  | MISSING_PUBLIC_API
  deriving DecidableEq, Repr

/-- Modelled from the spec: the structure validation of the source
(`src/unnamed/part_003` §3.2) — every discovered slice must contain an
`index.ts` public-API file; a slice lacking one is reported as a structure
issue.  The check depends only on the discovered slices, not on the import
edges. -/
def structureIssues (slices : List SliceInfo) : List (String × StructureIssueKind) :=
  (slices.filter fun s => ! s.hasIndexTs).map fun s => (s.id, .MISSING_PUBLIC_API)

/-- Modelled from the spec: the input handed to the evaluator by the Module
Graph Builder — discovered slices, resolved import edges, files whose scan
failed (recovered as `SCAN_ERROR` findings, spec §4.1/§7) and import
specifiers that could not be resolved (excluded from the graph, spec §7). -/
structure ScanInput where
  slices : List SliceInfo
  edges : List Edge
  failedFiles : List String
  unresolvedImports : List String
  deriving Repr

/-- The `SCAN_ERROR` finding recovered from an unreadable file. -/
def scanFinding (path : String) : Finding :=
  ⟨.SCAN_ERROR, path, 0, []⟩

/-- Modelled from the spec: the complete finding list of one run — scan
errors, per-edge findings and the global circular-dependency findings
(spec §4.3, §7). -/
def allFindings (p : Policy) (scan : ScanInput) : List Finding :=
  scan.failedFiles.map scanFinding ++ edgeFindings p scan.edges ++ circularFindings scan.edges

/-- The structured result of a run (spec §6). -/
structure Report where
  findings : List Finding
  structure_issues : List (String × StructureIssueKind)
  status : Status
  deriving DecidableEq, Repr

/-- Modelled from the spec: the Report Builder (spec §4.4) — aggregates the
finding list, the structure issues and the overall status. -/
def buildReport (strict : Bool) (p : Policy) (scan : ScanInput) : Report :=
  ⟨allFindings p scan, structureIssues scan.slices, resultStatus strict (allFindings p scan)⟩

/-- Modelled from the spec: one whole validation run (spec §7) — the policy
is loaded first and a malformed policy aborts with `ConfigurationError`
before any evaluation; every other condition is recovered into the report. -/
def runValidation (p : Policy) (strict : Bool) (scan : ScanInput) : Except ConfigurationError Report :=
  match loadPolicy p with
  | .error e => .error e
  | .ok q => .ok (buildReport strict q scan)

/-- Rendering of one finding as a report line. -/
def renderFinding (f : Finding) : String :=
  f.kind.kindName ++ " " ++ f.path ++ ":" ++ toString f.line ++ " " ++
    String.intercalate "," f.cycle

/-- Rendering of a whole report as text (spec §6: the human-readable report
string is derived from the structured result). -/
def renderReport (r : Report) : String :=
  String.intercalate ";" (r.findings.map renderFinding) ++ "|" ++
    String.intercalate ";" (r.structure_issues.map fun si => si.1) ++ "|" ++
    (match r.status with | .PASS => "PASS" | .FAIL => "FAIL")

/-! ## Helper lemmas -/

theorem classifyEdge_layer_iff (p : Policy) (e : Edge) :
    classifyEdge p e = some FindingKind.LAYER_VIOLATION ↔ layerRule p e = true := by
  unfold classifyEdge
  cases h1 : layerRule p e <;> cases h2 : publicApiRule e <;>
    cases h3 : crossSliceRule e <;> simp

theorem classifyEdge_public_iff (p : Policy) (e : Edge) :
    classifyEdge p e = some FindingKind.PUBLIC_API_VIOLATION ↔
      (layerRule p e = false ∧ publicApiRule e = true) := by
  unfold classifyEdge
  cases h1 : layerRule p e <;> cases h2 : publicApiRule e <;>
    cases h3 : crossSliceRule e <;> simp

theorem classifyEdge_cross_iff (p : Policy) (e : Edge) :
    classifyEdge p e = some FindingKind.CROSS_SLICE_VIOLATION ↔
      (layerRule p e = false ∧ publicApiRule e = false ∧ crossSliceRule e = true) := by
  unfold classifyEdge
  cases h1 : layerRule p e <;> cases h2 : publicApiRule e <;>
    cases h3 : crossSliceRule e <;> simp

theorem any_eq_of_perm {α : Type} {l1 l2 : List α} (h : l1.Perm l2) (q : α → Bool) :
    l1.any q = l2.any q := by
  cases hb : l2.any q
  · simp only [List.any_eq_false] at hb ⊢
    intro x hx
    exact hb x (h.mem_iff.mp hx)
  · simp only [List.any_eq_true] at hb ⊢
    obtain ⟨x, hx, hqx⟩ := hb
    exact ⟨x, h.mem_iff.mpr hx, hqx⟩

theorem sliceEdgeB_perm {es es2 : List Edge} (h : es.Perm es2) :
    sliceEdgeB es = sliceEdgeB es2 := by
  funext a b
  exact any_eq_of_perm h _

theorem canonNodes_perm_eq {es es2 : List Edge} (h : es.Perm es2) :
    canonNodes es = canonNodes es2 :=
  List.eq_of_perm_of_sorted
    ((List.perm_insertionSort keyLe _).trans
      ((((h.filterMap _).append (h.filterMap _)).dedup).trans
        (List.perm_insertionSort keyLe _).symm))
    (List.sorted_insertionSort keyLe _)
    (List.sorted_insertionSort keyLe _)

theorem circularFindings_perm_eq {es es2 : List Edge} (h : es.Perm es2) :
    circularFindings es = circularFindings es2 := by
  unfold circularFindings
  rw [sliceEdgeB_perm h, canonNodes_perm_eq h]

theorem mem_nontrivialSCCs_sorted {edge : String → String → Bool} {es : List Edge}
    {c : List String} (hc : c ∈ nontrivialSCCs edge (canonNodes es)) :
    c.Sorted keyLe := by
  unfold nontrivialSCCs at hc
  have hc2 := List.mem_of_mem_filter hc
  have hc3 := List.mem_dedup.mp hc2
  obtain ⟨s, _, rfl⟩ := List.mem_map.mp hc3
  unfold sccOf canonNodes
  exact (List.sorted_insertionSort keyLe _).filter _

theorem sorted_headD_le {l : List String} (hs : l.Sorted keyLe) {x : String} (hx : x ∈ l) :
    keyLe (l.headD x) x := by
  cases l with
  | nil => cases hx
  | cons a t =>
    cases hx with
    | head => exact le_refl (strKey _)
    | tail _ h => exact List.rel_of_sorted_cons hs x h

theorem nontrivialSCCs_nodup (edge : String → String → Bool) (nodes : List String) :
    (nontrivialSCCs edge nodes).Nodup :=
  (List.nodup_dedup _).filter _

theorem walkStep_mem {edge : String → String → Bool} {u : String} {rem : List String}
    (h : rem ≠ []) : walkStep edge u rem ∈ rem := by
  unfold walkStep
  cases hf : rem.filter (fun t => edge u t) with
  | cons t ts =>
    exact List.mem_of_mem_filter (by rw [hf]; exact List.mem_cons_self t ts)
  | nil =>
    cases rem with
    | nil => exact absurd rfl h
    | cons r rs => exact List.mem_cons_self r rs

theorem walkFrom_perm (edge : String → String → Bool) :
    ∀ (n : Nat) (rem : List String) (u : String), rem.length = n →
      (walkFrom edge n u rem).Perm rem := by
  intro n
  induction n with
  | zero =>
    intro rem u h
    rw [List.length_eq_zero] at h
    subst h
    exact List.Perm.refl _
  | succ n ih =>
    intro rem u h
    cases rem with
    | nil => simp at h
    | cons r rs =>
      have hne : (r :: rs) ≠ ([] : List String) := by simp
      have ht : walkStep edge u (r :: rs) ∈ r :: rs := walkStep_mem hne
      have hlen : ((r :: rs).erase (walkStep edge u (r :: rs))).length = n := by
        rw [List.length_erase_of_mem ht, h]
        rfl
      have hperm := ih _ (walkStep edge u (r :: rs)) hlen
      show (walkStep edge u (r :: rs) ::
          walkFrom edge n (walkStep edge u (r :: rs))
            ((r :: rs).erase (walkStep edge u (r :: rs)))).Perm (r :: rs)
      exact (hperm.cons _).trans (List.perm_cons_erase ht).symm

theorem cyclePath_perm (edge : String → String → Bool) (c : List String) :
    (cyclePath edge c).Perm c := by
  cases c with
  | nil => exact List.Perm.refl _
  | cons s0 rest => exact (walkFrom_perm edge rest.length rest s0 rfl).cons s0

theorem cyclePath_inj_on_sorted {edge : String → String → Bool} {c1 c2 : List String}
    (h1 : c1.Sorted keyLe) (h2 : c2.Sorted keyLe)
    (h : cyclePath edge c1 = cyclePath edge c2) : c1 = c2 := by
  refine List.eq_of_perm_of_sorted ?_ h1 h2
  refine (cyclePath_perm edge c1).symm.trans ?_
  rw [h]
  exact cyclePath_perm edge c2

/-! ## Concrete fixtures (modules and edges used by witnesses and
counterexamples) -/

/-- A module of `entities/user`. -/
def mEnt : Module := ⟨"entities/user/api/user.api.ts", some .entities, some "user", "api"⟩

/-- An internal (non-barrel) module of `features/auth`. -/
def mFeatDeep : Module := ⟨"features/auth/lib/validation.ts", some .features, some "auth", "lib"⟩

/-- An upward import: `entities` importing deep into a `features` slice. -/
def eUp : Edge := ⟨mEnt, mFeatDeep, false, 5⟩

/-- A module of `features/edit-user`. -/
def mEd : Module := ⟨"features/edit-user/api/useUpdateUser.ts", some .features, some "edit-user", "api"⟩

/-- An internal module of `features/delete-user`. -/
def mDelDeep : Module := ⟨"features/delete-user/lib/v.ts", some .features, some "delete-user", "lib"⟩

/-- The barrel file of `features/delete-user`. -/
def mDelBarrel : Module := ⟨"features/delete-user/index.ts", some .features, some "delete-user", "unknown"⟩

/-- `features/edit-user` importing deep into `features/delete-user`. -/
def eDeep : Edge := ⟨mEd, mDelDeep, false, 8⟩

/-- `features/edit-user` importing `features/delete-user` through its barrel. -/
def eBarrel : Edge := ⟨mEd, mDelBarrel, true, 8⟩

/-- Modules of the three slices `features/a`, `features/b`, `features/c`. -/
def mA : Module := ⟨"features/a/ui/x.ts", some .features, some "a", "ui"⟩

def mB : Module := ⟨"features/b/index.ts", some .features, some "b", "unknown"⟩

def mC : Module := ⟨"features/c/index.ts", some .features, some "c", "unknown"⟩

def mA2 : Module := ⟨"features/a/index.ts", some .features, some "a", "unknown"⟩

def mB2 : Module := ⟨"features/b/api/y.ts", some .features, some "b", "api"⟩

def mC2 : Module := ⟨"features/c/api/z.ts", some .features, some "c", "api"⟩

/-- The synthetic 3-slice cycle `a → b → c → a`. -/
def eAB : Edge := ⟨mA, mB, true, 1⟩

def eBC : Edge := ⟨mB2, mC, true, 2⟩

def eCA : Edge := ⟨mC2, mA2, true, 3⟩

/-- The same three slices cycling in the opposite orientation
`a → c → b → a`. -/
def eAC : Edge := ⟨mA, mC, true, 1⟩

def eCB : Edge := ⟨mC2, mB, true, 2⟩

def eBA : Edge := ⟨mB2, mA2, true, 3⟩

/-- Two modules of the single slice `features/s` importing each other — a
file-level cycle entirely inside one slice. -/
def mS1 : Module := ⟨"features/s/ui/p.ts", some .features, some "s", "ui"⟩

def mS2 : Module := ⟨"features/s/lib/q.ts", some .features, some "s", "lib"⟩

def eS12 : Edge := ⟨mS1, mS2, false, 1⟩

def eS21 : Edge := ⟨mS2, mS1, false, 2⟩

/-- A scan with one failing file and one layer-violating edge. -/
def scan1 : ScanInput := ⟨[], [eUp], ["broken.ts"], []⟩

/-! ## Claim theorems -/

/-- C1: for every edge whose two modules have scoped, differing layers, the
edge is classified `LAYER_VIOLATION` exactly when the policy does not allow
the import; the default policy allows an import exactly when the target
layer sits strictly below the importing layer in the fixed order
`shared < entities < features < widgets < pages < app`; equal-layer edges
are never classified by this rule. -/
theorem layer_rule_exact (p : Policy) (e : Edge) (lf lt : Layer)
    (h1 : e.fromM.layer = some lf) (h2 : e.toM.layer = some lt) :
    (lf ≠ lt → (classifyEdge p e = some .LAYER_VIOLATION ↔ p.isAllowed lf lt = false))
    ∧ (lf = lt → classifyEdge p e ≠ some .LAYER_VIOLATION)
    ∧ (∀ a b : Layer, defaultPolicy.isAllowed a b = true ↔ b.index < a.index) := by
  refine ⟨?_, ?_, by decide⟩
  · intro hne
    rw [classifyEdge_layer_iff]
    unfold layerRule
    rw [h1, h2]
    cases hia : p.isAllowed lf lt <;> simp [hne, hia]
  · intro heq
    rw [Ne, classifyEdge_layer_iff]
    unfold layerRule
    rw [h1, h2, heq]
    simp

/-- C1 witness: the upward import `entities/user → features/auth` is a
`LAYER_VIOLATION` under the default policy. -/
theorem layer_rule_exact_witness :
    classifyEdge defaultPolicy eUp = some .LAYER_VIOLATION
    ∧ defaultPolicy.isAllowed .entities .features = false :=
  ⟨((layer_rule_exact defaultPolicy eUp .entities .features rfl rfl).1
      (by decide)).mpr (by decide), by decide⟩

/-- C2 counterexample: the edge `eUp` targets a path inside the slice
`features/auth`, is not its barrel file and crosses a slice boundary, yet it
is classified `LAYER_VIOLATION` (the layer rule matches first), not
`PUBLIC_API_VIOLATION` — refuting the claim's "exactly when". -/
theorem public_api_claim_counterexample :
    eUp.toM.slice.isSome = true ∧ eUp.targetIsBarrel = false
    ∧ crossesSliceBoundary eUp = true
    ∧ classifyEdge defaultPolicy eUp = some .LAYER_VIOLATION
    ∧ classifyEdge defaultPolicy eUp ≠ some .PUBLIC_API_VIOLATION := by
  decide

/-- C2 (amended): for every edge whose target resolves inside a slice's
tree, the edge is classified `PUBLIC_API_VIOLATION` exactly when the target
is not that slice's barrel file, the edge crosses a slice boundary, and the
edge does not already match the layer rule; a barrel import never produces
`PUBLIC_API_VIOLATION`, and a same-slice import never produces one. -/
theorem public_api_rule_exact (p : Policy) (e : Edge) :
    (e.toM.slice.isSome = true →
      (classifyEdge p e = some .PUBLIC_API_VIOLATION ↔
        (e.targetIsBarrel = false ∧ crossesSliceBoundary e = true ∧ layerRule p e = false)))
    ∧ (e.targetIsBarrel = true → classifyEdge p e ≠ some .PUBLIC_API_VIOLATION)
    ∧ (e.fromM.slice = e.toM.slice → classifyEdge p e ≠ some .PUBLIC_API_VIOLATION) := by
  refine ⟨?_, ?_, ?_⟩
  · intro hsome
    rw [classifyEdge_public_iff]
    unfold publicApiRule
    rw [hsome]
    cases hb : e.targetIsBarrel <;> cases hcr : crossesSliceBoundary e <;>
      cases hl : layerRule p e <;> simp
  · intro hb
    rw [Ne, classifyEdge_public_iff]
    unfold publicApiRule
    rw [hb]
    simp
  · intro hss
    rw [Ne, classifyEdge_public_iff]
    unfold publicApiRule
    cases hts : e.toM.slice with
    | none => simp [hts]
    | some s =>
      have hcr : crossesSliceBoundary e = false := by
        unfold crossesSliceBoundary
        rw [hss, hts]
        simp
      simp [hcr]

/-- C2 witness: the deep cross-slice import `eDeep` is a
`PUBLIC_API_VIOLATION`; the barrel import `eBarrel` is not. -/
theorem public_api_rule_exact_witness :
    classifyEdge defaultPolicy eDeep = some .PUBLIC_API_VIOLATION
    ∧ classifyEdge defaultPolicy eBarrel ≠ some .PUBLIC_API_VIOLATION :=
  ⟨((public_api_rule_exact defaultPolicy eDeep).1 rfl).mpr (by decide),
    (public_api_rule_exact defaultPolicy eBarrel).2.1 rfl⟩

/-- C3 counterexample: the edge `eDeep` has equal layers (`features`),
different non-null slices, and its layer is not `shared`, yet it is
classified `PUBLIC_API_VIOLATION` (the public-API rule matches first), not
`CROSS_SLICE_VIOLATION` — refuting the claim's "exactly when". -/
theorem cross_slice_claim_counterexample :
    eDeep.fromM.layer = some .features ∧ eDeep.toM.layer = some .features
    ∧ eDeep.fromM.slice = some "edit-user" ∧ eDeep.toM.slice = some "delete-user"
    ∧ Layer.features ≠ .shared
    ∧ classifyEdge defaultPolicy eDeep ≠ some .CROSS_SLICE_VIOLATION
    ∧ classifyEdge defaultPolicy eDeep = some .PUBLIC_API_VIOLATION := by
  decide

/-- C3 (amended): for every edge with equal scoped layers and different
non-null slices, the edge is classified `CROSS_SLICE_VIOLATION` exactly
when the layer is not `shared` and the import goes through the target
slice's barrel file (a non-barrel target is claimed first by the public-API
rule); a module of `features/edit-user` importing the barrel of
`features/delete-user` yields exactly one `CROSS_SLICE_VIOLATION` finding,
whose severity is WARNING in default (non-strict) mode. -/
theorem cross_slice_rule_exact (p : Policy) (e : Edge) (l : Layer) (sf st : String)
    (h1 : e.fromM.layer = some l) (h2 : e.toM.layer = some l)
    (h3 : e.fromM.slice = some sf) (h4 : e.toM.slice = some st) (h5 : sf ≠ st) :
    (classifyEdge p e = some .CROSS_SLICE_VIOLATION ↔
      (l ≠ .shared ∧ e.targetIsBarrel = true))
    ∧ edgeFindings defaultPolicy [eBarrel] =
        [⟨.CROSS_SLICE_VIOLATION, "features/edit-user/api/useUpdateUser.ts", 8, []⟩]
    ∧ severity false .CROSS_SLICE_VIOLATION = .WARNING := by
  refine ⟨?_, by decide, rfl⟩
  rw [classifyEdge_cross_iff]
  have hlr : layerRule p e = false := by
    unfold layerRule
    rw [h1, h2]
    simp
  have hcr : crossesSliceBoundary e = true := by
    unfold crossesSliceBoundary
    rw [h3, h4]
    simp [h5]
  have hpub : publicApiRule e = ! e.targetIsBarrel := by
    unfold publicApiRule
    rw [h4, hcr]
    simp
  have hcsr : crossSliceRule e = decide (l ≠ Layer.shared) := by
    unfold crossSliceRule
    rw [h1, h2, h3, h4]
    simp [h5]
  rw [hlr, hpub, hcsr]
  cases hb : e.targetIsBarrel <;> by_cases hsh : l = Layer.shared <;> simp [hsh]

/-- C3 witness: the barrel import `eBarrel` from `features/edit-user` to
`features/delete-user` is classified `CROSS_SLICE_VIOLATION`. -/
theorem cross_slice_rule_exact_witness :
    classifyEdge defaultPolicy eBarrel = some .CROSS_SLICE_VIOLATION :=
  ((cross_slice_rule_exact defaultPolicy eBarrel .features "edit-user" "delete-user"
      rfl rfl rfl rfl (by decide)).1).mpr ⟨by decide, rfl⟩

/-- C4 counterexample: for the file-level cycle `eS12, eS21` inside the
single slice `features/s`, the condensation built literally from the
claim's words ("slice A depends on slice B if any module in A imports any
module in B") has exactly one nontrivial strongly-connected component (a
self-loop), so the claim demands one `CIRCULAR_DEPENDENCY` finding — yet
the claim simultaneously demands that file-level cycles within a single
slice produce no finding, and the validator produces none. -/
theorem circular_claim_counterexample :
    (nontrivialSCCs (sliceEdgeLiteralB [eS12, eS21]) (canonNodes [eS12, eS21])).length = 1
    ∧ circularFindings [eS12, eS21] = [] := by
  decide

/-- C4 (amended): circular-dependency detection runs once globally over the
slice-level condensation restricted to distinct slices (intra-slice module
edges contribute no condensed edge, so self-loops never arise and
file-level cycles within a single slice produce no finding); every
nontrivial strongly-connected component produces exactly one
`CIRCULAR_DEPENDENCY` finding naming the cycle's slices (the reported
cycle is a permutation of the component), with the reported cycle rotated
to start at the lexicographically smallest slice identifier (both
orientations of the synthetic 3-slice cycle are reported as their rotation
starting at `features/a`); the findings are independent of module
insertion/scan order. -/
theorem circular_detection_exact :
    (∀ es es2 : List Edge, es.Perm es2 → circularFindings es = circularFindings es2)
    ∧ circularFindings [eAB, eBC, eCA] =
        [⟨.CIRCULAR_DEPENDENCY, "features/a", 0, ["features/a", "features/b", "features/c"]⟩]
    ∧ circularFindings [eAC, eCB, eBA] =
        [⟨.CIRCULAR_DEPENDENCY, "features/a", 0, ["features/a", "features/c", "features/b"]⟩]
    ∧ circularFindings [eS12, eS21] = []
    ∧ (∀ es : List Edge, ∀ f ∈ circularFindings es,
        (∃ c ∈ nontrivialSCCs (sliceEdgeB es) (canonNodes es), f.cycle.Perm c)
        ∧ ∀ x ∈ f.cycle, keyLe (f.cycle.headD x) x)
    ∧ (∀ es : List Edge, ∀ c ∈ nontrivialSCCs (sliceEdgeB es) (canonNodes es),
        (circularFindings es).count (cycleFinding (sliceEdgeB es) c) = 1) := by
  refine ⟨fun es es2 h => circularFindings_perm_eq h, by decide, by decide, by decide, ?_, ?_⟩
  · intro es f hf
    obtain ⟨c, hc, rfl⟩ := List.mem_map.mp hf
    have hs : c.Sorted keyLe := mem_nontrivialSCCs_sorted hc
    refine ⟨⟨c, hc, cyclePath_perm _ _⟩, ?_⟩
    intro x hx
    have hxc : x ∈ c := (cyclePath_perm (sliceEdgeB es) c).mem_iff.mp hx
    cases c with
    | nil => cases hxc
    | cons s0 rest => exact sorted_headD_le hs hxc
  · intro es c hc
    have hnd : (circularFindings es).Nodup := by
      refine List.Nodup.map_on ?_ (nontrivialSCCs_nodup _ _)
      intro x hx y hy hxy
      exact cyclePath_inj_on_sorted (mem_nontrivialSCCs_sorted hx)
        (mem_nontrivialSCCs_sorted hy) (congrArg Finding.cycle hxy)
    exact List.count_eq_one_of_mem hnd (List.mem_map_of_mem _ hc)

/-- C4 witness: the 3-slice cycle yields the same finding list under a
rotated scan order, and its component's finding occurs exactly once. -/
theorem circular_detection_exact_witness :
    circularFindings [eAB, eBC, eCA] = circularFindings [eCA, eAB, eBC]
    ∧ (circularFindings [eAB, eBC, eCA]).count
        (cycleFinding (sliceEdgeB [eAB, eBC, eCA])
          ["features/a", "features/b", "features/c"]) = 1 := by
  constructor
  · exact circular_detection_exact.1 _ _ (by decide)
  · exact circular_detection_exact.2.2.2.2.2 [eAB, eBC, eCA]
      ["features/a", "features/b", "features/c"] (by decide)

/-- C5: the run status is FAIL exactly when some finding has severity ERROR
under the active strictness mode; `LAYER_VIOLATION` and
`CIRCULAR_DEPENDENCY` are always ERROR, `PUBLIC_API_VIOLATION` and
`CROSS_SLICE_VIOLATION` are ERROR in strict mode and WARNING otherwise; a
lone `CROSS_SLICE_VIOLATION` yields PASS in non-strict mode and FAIL in
strict mode. -/
theorem status_severity_exact (strict : Bool) (fs : List Finding) :
    (resultStatus strict fs = .FAIL ↔ ∃ f ∈ fs, severity strict f.kind = .ERROR)
    ∧ severity strict .LAYER_VIOLATION = .ERROR
    ∧ severity strict .CIRCULAR_DEPENDENCY = .ERROR
    ∧ severity true .PUBLIC_API_VIOLATION = .ERROR
    ∧ severity false .PUBLIC_API_VIOLATION = .WARNING
    ∧ severity true .CROSS_SLICE_VIOLATION = .ERROR
    ∧ severity false .CROSS_SLICE_VIOLATION = .WARNING
    ∧ (∀ pa ln cyc, resultStatus false [⟨.CROSS_SLICE_VIOLATION, pa, ln, cyc⟩] = .PASS
        ∧ resultStatus true [⟨.CROSS_SLICE_VIOLATION, pa, ln, cyc⟩] = .FAIL)
    ∧ (∀ q scan r, runValidation q strict scan = .ok r →
        (r.status = .FAIL ↔ ∃ f ∈ r.findings, severity strict f.kind = .ERROR)) := by
  have hiff : ∀ gs : List Finding,
      (resultStatus strict gs = .FAIL ↔ ∃ f ∈ gs, severity strict f.kind = .ERROR) := by
    intro gs
    constructor
    · intro hFail
      by_contra hno
      push_neg at hno
      have hany : (gs.any fun f => decide (severity strict f.kind = .ERROR)) = false := by
        simp only [List.any_eq_false, decide_eq_true_eq]
        exact hno
      unfold resultStatus at hFail
      rw [hany] at hFail
      simp at hFail
    · intro hex
      obtain ⟨f, hf, hsev⟩ := hex
      have hany : (gs.any fun f => decide (severity strict f.kind = .ERROR)) = true := by
        simp only [List.any_eq_true, decide_eq_true_eq]
        exact ⟨f, hf, hsev⟩
      unfold resultStatus
      rw [hany]
      simp
  refine ⟨hiff fs, by cases strict <;> rfl, by cases strict <;> rfl, rfl, rfl, rfl, rfl,
    ?_, ?_⟩
  · intro pa ln cyc
    exact ⟨rfl, rfl⟩
  · intro q scan r hrun
    unfold runValidation at hrun
    cases hl : loadPolicy q with
    | error er => rw [hl] at hrun; cases hrun
    | ok q2 =>
      rw [hl] at hrun
      injection hrun with hr
      subst hr
      exact hiff _

/-- C5 witness: a lone cross-slice finding passes in default mode and fails
in strict mode, and the severity table evaluates as claimed. -/
theorem status_severity_exact_witness :
    resultStatus false [⟨.CROSS_SLICE_VIOLATION, "a.ts", 1, []⟩] = .PASS
    ∧ resultStatus true [⟨.CROSS_SLICE_VIOLATION, "a.ts", 1, []⟩] = .FAIL
    ∧ severity false .LAYER_VIOLATION = .ERROR := by
  refine ⟨((status_severity_exact false []).2.2.2.2.2.2.2.1 "a.ts" 1 []).1,
    ((status_severity_exact true []).2.2.2.2.2.2.2.1 "a.ts" 1 []).2,
    (status_severity_exact false []).2.1⟩

/-- C6: every policy accepted by `loadPolicy` satisfies the monotonicity
invariant — each allowed target layer sits strictly below the importing
layer — and `shared` maps to the empty set in the default table; a policy
violating the invariant is rejected with `ConfigurationError` at load time,
so the whole run aborts before any evaluation and no report is produced. -/
theorem policy_monotonicity_exact :
    (∀ p q : Policy, loadPolicy p = .ok q →
      ∀ l l2 : Layer, l2 ∈ q.allowed l → l2.index < l.index)
    ∧ (∀ p : Policy, monotoneOK p = false →
        loadPolicy p = .error .invalidPolicy
        ∧ ∀ strict scan, runValidation p strict scan = .error .invalidPolicy)
    ∧ LAYER_DEPENDENCIES .shared = [] := by
  refine ⟨?_, ?_, rfl⟩
  · intro p q hok l l2 hmem
    have hmono : monotoneOK p = true := by
      by_contra hno
      have hf : monotoneOK p = false := by
        cases hm : monotoneOK p
        · rfl
        · exact absurd hm hno
      unfold loadPolicy at hok
      rw [hf] at hok
      cases hok
    have hqp : q = p := by
      unfold loadPolicy at hok
      rw [hmono] at hok
      injection hok with h
      exact h.symm
    subst hqp
    unfold monotoneOK at hmono
    rw [List.all_eq_true] at hmono
    have hl : l ∈ allLayers := by
      cases l <;> decide
    have h2 := hmono l hl
    rw [List.all_eq_true] at h2
    have h3 := h2 l2 hmem
    exact of_decide_eq_true h3
  · intro p hbad
    have hload : loadPolicy p = .error .invalidPolicy := by
      unfold loadPolicy
      rw [hbad]
      rfl
    refine ⟨hload, ?_⟩
    intro strict scan
    unfold runValidation
    rw [hload]

/-- C6 witness: the default policy is accepted and monotone at a concrete
pair, and the run with a policy letting `shared` import `app` aborts with
`ConfigurationError` and produces no report. -/
theorem policy_monotonicity_exact_witness :
    Layer.shared.index < Layer.app.index
    ∧ runValidation ⟨fun _ => [Layer.app]⟩ false ⟨[], [], [], []⟩ =
        .error .invalidPolicy := by
  constructor
  · exact policy_monotonicity_exact.1 defaultPolicy defaultPolicy rfl .app .shared
      (by decide)
  · exact (policy_monotonicity_exact.2.1 ⟨fun _ => [Layer.app]⟩ (by decide)).2 false _

/-- C7: only `ConfigurationError` aborts a run — `runValidation` returns an
error exactly when the policy fails the monotonicity check; on success the
report contains a `SCAN_ERROR` finding for every unreadable file and a
finding for every classified (violating) edge, so the evaluator never stops
early; unresolvable/external import specifiers are excluded from the graph
and do not affect the result. -/
theorem error_propagation_exact (p : Policy) (strict : Bool) (scan : ScanInput) :
    ((∃ er, runValidation p strict scan = .error er) ↔ monotoneOK p = false)
    ∧ (∀ r, runValidation p strict scan = .ok r →
        (∀ f ∈ scan.failedFiles, scanFinding f ∈ r.findings)
        ∧ (∀ e ∈ scan.edges, ∀ k, classifyEdge p e = some k → edgeFinding e k ∈ r.findings))
    ∧ (∀ l, runValidation p strict ⟨scan.slices, scan.edges, scan.failedFiles, l⟩ =
        runValidation p strict scan) := by
  refine ⟨?_, ?_, fun l => rfl⟩
  · constructor
    · intro hex
      obtain ⟨er, her⟩ := hex
      cases hm : monotoneOK p
      · rfl
      · unfold runValidation loadPolicy at her
        rw [hm] at her
        cases her
    · intro hm
      refine ⟨.invalidPolicy, ?_⟩
      unfold runValidation loadPolicy
      rw [hm]
      rfl
  · intro r hrun
    cases hm : monotoneOK p
    · unfold runValidation loadPolicy at hrun
      rw [hm] at hrun
      cases hrun
    · unfold runValidation loadPolicy at hrun
      rw [hm] at hrun
      injection hrun with hr
      subst hr
      constructor
      · intro f hf
        have h1 : scanFinding f ∈ scan.failedFiles.map scanFinding :=
          List.mem_map_of_mem _ hf
        show scanFinding f ∈ allFindings p scan
        unfold allFindings
        exact List.mem_append_left _ (List.mem_append_left _ h1)
      · intro e he k hk
        have h1 : edgeFinding e k ∈ edgeFindings p scan.edges := by
          unfold edgeFindings
          refine List.mem_filterMap.mpr ⟨e, he, ?_⟩
          rw [hk]
          rfl
        show edgeFinding e k ∈ allFindings p scan
        unfold allFindings
        exact List.mem_append_left _ (List.mem_append_right _ h1)

/-- C7 witness: on a scan with one unreadable file and one layer-violating
edge, the run completes with a report containing both the `SCAN_ERROR`
finding and the `LAYER_VIOLATION` finding. -/
theorem error_propagation_exact_witness :
    scanFinding "broken.ts" ∈ (buildReport false defaultPolicy scan1).findings
    ∧ edgeFinding eUp .LAYER_VIOLATION ∈ (buildReport false defaultPolicy scan1).findings := by
  have h := (error_propagation_exact defaultPolicy false scan1).2.1
    (buildReport false defaultPolicy scan1) rfl
  exact ⟨h.1 "broken.ts" (by decide), h.2 eUp (by decide) .LAYER_VIOLATION (by decide)⟩

/-- C8: the whole run is a pure function of its inputs — re-running on the
same policy, mode and scan yields the same result, and any two reports a
fixed run returns are identical, down to their rendered text. -/
theorem determinism_exact (p : Policy) (strict : Bool) (scan : ScanInput) :
    runValidation p strict scan = runValidation p strict scan
    ∧ allFindings p scan = allFindings p scan
    ∧ (∀ r r2 : Report, runValidation p strict scan = .ok r →
        runValidation p strict scan = .ok r2 →
        r = r2 ∧ renderReport r = renderReport r2) := by
  refine ⟨rfl, rfl, ?_⟩
  intro r r2 h1 h2
  rw [h1] at h2
  injection h2 with h
  subst h
  exact ⟨rfl, rfl⟩

/-- C8 witness: two runs on the fixture scan return the same report with
the same rendering. -/
theorem determinism_exact_witness :
    buildReport false defaultPolicy scan1 = buildReport false defaultPolicy scan1
    ∧ renderReport (buildReport false defaultPolicy scan1) =
        renderReport (buildReport false defaultPolicy scan1) :=
  (determinism_exact defaultPolicy false scan1).2.2
    (buildReport false defaultPolicy scan1) (buildReport false defaultPolicy scan1) rfl rfl

/-- C9: in the default policy the allowed set of every layer is exactly the
set of layers strictly below it in the fixed order — `isAllowed l1 l2`
holds precisely when `l2`'s index is below `l1`'s — and the table lists
exactly the lower layers, with `shared` mapped to the empty list. -/
theorem default_policy_exact :
    (∀ l1 l2 : Layer, defaultPolicy.isAllowed l1 l2 = true ↔ l2.index < l1.index)
    ∧ (∀ l1 l2 : Layer, l2 ∈ LAYER_DEPENDENCIES l1 ↔ l2.index < l1.index)
    ∧ LAYER_DEPENDENCIES .app = [.pages, .widgets, .features, .entities, .shared]
    ∧ LAYER_DEPENDENCIES .pages = [.widgets, .features, .entities, .shared]
    ∧ LAYER_DEPENDENCIES .widgets = [.features, .entities, .shared]
    ∧ LAYER_DEPENDENCIES .features = [.entities, .shared]
    ∧ LAYER_DEPENDENCIES .entities = [.shared]
    ∧ LAYER_DEPENDENCIES .shared = [] := by
  refine ⟨by decide, by decide, rfl, rfl, rfl, rfl, rfl, rfl⟩

/-- C10: a discovered slice lacking an `index.ts` public-API file is
reported as a structure issue, independently of the import edges (even when
none target the slice), and the structure-issue kind is not one of the five
finding kinds of the specification's taxonomy. -/
theorem structure_check_exact (slices : List SliceInfo) (s : SliceInfo)
    (hmem : s ∈ slices) (hno : s.hasIndexTs = false) :
    (s.id, StructureIssueKind.MISSING_PUBLIC_API) ∈ structureIssues slices
    ∧ (∀ p strict edges failed unres r,
        runValidation p strict ⟨slices, edges, failed, unres⟩ = .ok r →
        (s.id, StructureIssueKind.MISSING_PUBLIC_API) ∈ r.structure_issues)
    ∧ (∀ k : FindingKind, k.kindName ≠ "MISSING_PUBLIC_API") := by
  have hmemIssue : (s.id, StructureIssueKind.MISSING_PUBLIC_API) ∈ structureIssues slices := by
    unfold structureIssues
    refine List.mem_map.mpr ⟨s, ?_, rfl⟩
    refine List.mem_filter.mpr ⟨hmem, ?_⟩
    rw [hno]
    rfl
  refine ⟨hmemIssue, ?_, by decide⟩
  intro p strict edges failed unres r hrun
  cases hm : monotoneOK p
  · unfold runValidation loadPolicy at hrun
    rw [hm] at hrun
    cases hrun
  · unfold runValidation loadPolicy at hrun
    rw [hm] at hrun
    injection hrun with hr
    subst hr
    exact hmemIssue

/-- C10 witness: the slice `features/x` without `index.ts` is reported as a
structure issue on a scan with no edges at all. -/
theorem structure_check_exact_witness :
    ("features/x", StructureIssueKind.MISSING_PUBLIC_API) ∈
        structureIssues [⟨"features/x", false⟩]
    ∧ ("features/x", StructureIssueKind.MISSING_PUBLIC_API) ∈
        (buildReport false defaultPolicy ⟨[⟨"features/x", false⟩], [], [], []⟩).structure_issues := by
  have h := structure_check_exact [⟨"features/x", false⟩] ⟨"features/x", false⟩
    (by decide) rfl
  exact ⟨h.1, h.2.1 defaultPolicy false [] [] []
    (buildReport false defaultPolicy ⟨[⟨"features/x", false⟩], [], [], []⟩) rfl⟩

end FSD
